import Mathlib

/-!
Shallow embedding of the Paywise backend (expense tracking with group
balance netting and a Splitwise migration pipeline).  Amounts are embedded
as rationals; Mongo ObjectIds as naturals; dates as integers.

Sources embedded:
* `computeBalances` / `buildMemberSummary` — settle-up scheduler utility.
* group membership routes: add member, join, leave.
* `POST /register` ghost-account promotion.
* `runMigration` — Splitwise import (token check, group loop, dedup).
* `PUT /api/expenses/:id` — proportional rescaling of splits and items.
-/

namespace Paywise

/-- One split entry of an expense: `{ user, amount }`. -/
structure Split where
  user : Nat
  amount : ℚ
deriving DecidableEq, Repr

/-- One item of an itemized expense: `{ assignedTo, price }`. -/
structure Item where
  assignedTo : Nat
  price : ℚ
deriving DecidableEq, Repr

/-- An expense record (fields used by the embedded routes). -/
structure ExpenseRec where
  description : String
  amount : ℚ
  paidBy : Nat
  splits : List Split
  items : List Item
deriving DecidableEq, Repr

/-! ### Balance netting engine (`computeBalances`, `buildMemberSummary`) -/

/-- Pairwise balance matrix: `mat debtor creditor` is what debtor owes creditor.
The JS nested object with missing keys is embedded as a total function that is
`0` outside the initialized member pairs. -/
abbrev Mat := Nat → Nat → ℚ

/-- Write one entry of the matrix. -/
def mupd (m : Mat) (i j : Nat) (v : ℚ) : Mat :=
  fun a b => if a = i ∧ b = j then v else m a b

/-- Accumulation step for one expense: for each split, add `split.amount` to
`pairwise[debtor][creditor]` when debtor ≠ creditor and both keys exist
(i.e. both are members). -/
def addExpense (members : List Nat) (m : Mat) (e : ExpenseRec) : Mat :=
  e.splits.foldl
    (fun acc s =>
      if s.user ≠ e.paidBy ∧ s.user ∈ members ∧ e.paidBy ∈ members then
        mupd acc s.user e.paidBy (acc s.user e.paidBy + s.amount)
      else acc)
    m

/-- The pre-netting pairwise matrix built from all expenses. -/
def accumulate (expenses : List ExpenseRec) (members : List Nat) : Mat :=
  expenses.foldl (addExpense members) (fun _ _ => 0)

/-- One netting step for the ordered pair `(a, b)`: compare `m a b` and
`m b a`; the larger becomes the difference, the smaller becomes zero. -/
def netPair (m : Mat) (a b : Nat) : Mat :=
  let aOwesB := m a b
  let bOwesA := m b a
  if aOwesB > bOwesA then
    mupd (mupd m a b (aOwesB - bOwesA)) b a 0
  else
    mupd (mupd m b a (bOwesA - aOwesB)) a b 0

/-- Inner loop of the netting pass: net `a` against each member of `bs`. -/
def netInner (m : Mat) (a : Nat) (bs : List Nat) : Mat :=
  bs.foldl (fun acc b => netPair acc a b) m

/-- Netting pass over every unordered pair (the `members.forEach((a, i)) /
members.slice(i+1).forEach(b)` double loop). -/
def netAll (m : Mat) : List Nat → Mat
  | [] => m
  | a :: rest => netAll (netInner m a rest) rest

/-- `computeBalances(expenses, members)`: accumulate obligations, then net. -/
def computeBalances (expenses : List ExpenseRec) (members : List Nat) : Mat :=
  netAll (accumulate expenses members) members

/-- `buildMemberSummary(memberId, pairwise, allMembers)`: the `owes` list is
every other member whose entry `pairwise[memberId][other]` exceeds 0.005; the
`owedBy` list is every other member whose entry toward this member exceeds
0.005.  Pairs are returned in member-list order, as the JS key order gives. -/
def buildMemberSummary (memberId : Nat) (pairwise : Mat) (allMembers : List Nat) :
    List (Nat × ℚ) × List (Nat × ℚ) :=
  let others := allMembers.filter (fun o => o ≠ memberId)
  let owes := others.filterMap
    (fun o => if pairwise memberId o > (5 : ℚ) / 1000 then some (o, pairwise memberId o) else none)
  let owedBy := others.filterMap
    (fun o => if pairwise o memberId > (5 : ℚ) / 1000 then some (o, pairwise o memberId) else none)
  (owes, owedBy)

/-! ### Group membership routes (`POST /:id/members`, `/:id/join`, `/:id/leave`) -/

/-- A group document: active member ids and past member ids. -/
structure PGroup where
  members : List Nat
  pastMembers : List Nat
deriving DecidableEq, Repr

/-- `POST api/groups/:id/members` (user already registered): if the user is not
an active member, remove them from `pastMembers` and push onto `members`. -/
def addMember (g : PGroup) (uid : Nat) : PGroup :=
  if uid ∈ g.members then g
  else { members := g.members ++ [uid],
         pastMembers := g.pastMembers.filter (fun i => i ≠ uid) }

/-- `POST api/groups/:id/join`: same membership update as adding by email. -/
def joinGroup (g : PGroup) (uid : Nat) : PGroup :=
  if uid ∈ g.members then g
  else { members := g.members ++ [uid],
         pastMembers := g.pastMembers.filter (fun i => i ≠ uid) }

/-- Balance computed by the leave route: add each amount the user paid,
subtract each split amount charged to the user. -/
def userBalance (uid : Nat) (expenses : List ExpenseRec) : ℚ :=
  expenses.foldl
    (fun b e =>
      let b1 := if e.paidBy = uid then b + e.amount else b
      e.splits.foldl (fun b2 s => if s.user = uid then b2 - s.amount else b2) b1)
    0

/-- `POST api/groups/:id/leave`: an active member is removed from `members`;
if `|balance| > 0.01` they are pushed onto `pastMembers` (unless already
there).  A non-member request is rejected with no state change. -/
def leaveGroup (g : PGroup) (uid : Nat) (expenses : List ExpenseRec) : PGroup :=
  if uid ∈ g.members then
    let bal := userBalance uid expenses
    let members' := g.members.filter (fun i => i ≠ uid)
    let past' :=
      if |bal| > (1 : ℚ) / 100 then
        if uid ∈ g.pastMembers then g.pastMembers else g.pastMembers ++ [uid]
      else g.pastMembers
    { members := members', pastMembers := past' }
  else g

/-! ### Registration and ghost promotion (`POST api/auth/register`) -/

/-- Splitwise migration status of a user (`none | pending | completed`). -/
inductive MigStatus where
  | noStatus
  | pending
  | completed
deriving DecidableEq, Repr

/-- A user document (fields relevant to registration and migration). -/
structure PUser where
  uid : Nat
  username : String
  email : String
  password : String
  isGhostUser : Bool
  migStatus : MigStatus
  friends : List Nat
  avatarInitials : String
deriving DecidableEq, Repr

/-- Ghost-promotion branch of `POST /register`: set the (hashed) password and
the username, clear the ghost flag, and reset the migration status to
`'none'`; nothing else on the record is touched. -/
def promoteGhost (u : PUser) (username password : String) : PUser :=
  { u with password := password
           username := username
           isGhostUser := false
           migStatus := MigStatus.noStatus }

/-- Result of a registration request. -/
inductive RegOutcome where
  | promoted (u : PUser)
  | alreadyExists
  | created (u : PUser)
deriving DecidableEq, Repr

/-- `POST api/auth/register`: look the email up; an existing ghost is
promoted, an existing real user is an error, otherwise a fresh user is
created. -/
def register (store : List PUser) (freshUid : Nat)
    (username email password : String) : RegOutcome :=
  match store.find? (fun u => u.email = email) with
  | some u =>
      if u.isGhostUser then RegOutcome.promoted (promoteGhost u username password)
      else RegOutcome.alreadyExists
  | none =>
      RegOutcome.created
        { uid := freshUid, username := username, email := email,
          password := password, isGhostUser := false,
          migStatus := MigStatus.noStatus, friends := [], avatarInitials := "" }

/-! ### Splitwise migration (`runMigration` in the splitwise routes) -/

/-- A foreign (Splitwise) expense as consumed by the import loop:
`deletedAt` truthiness, the parsed `cost` (`none` = unparseable), the
optional description, and the date. -/
structure SWExp where
  deletedAt : Bool
  cost : Option ℚ
  description : Option String
  date : Int
deriving DecidableEq, Repr

/-- `swExp.description || 'Splitwise Migrated'` (empty string is falsy). -/
def effectiveDescription (d : Option String) : String :=
  match d with
  | none => "Splitwise Migrated"
  | some s => if s = "" then "Splitwise Migrated" else s

/-- A local expense document as written by the migration (the fields used by
the dedup query and the insert). -/
structure MigExpense where
  description : String
  amount : ℚ
  date : Int
  group : Nat
  addedBy : Nat
deriving DecidableEq, Repr

/-- The dedup lookup the code issues before inserting: an existing expense
with the same description, the same amount, the same group and the same
`addedBy`. -/
def isDuplicate (store : List MigExpense) (desc : String) (amt : ℚ)
    (groupId userId : Nat) : Bool :=
  store.any (fun e =>
    e.description = desc ∧ e.amount = amt ∧ e.group = groupId ∧ e.addedBy = userId)

/-- Modelled from the spec (for comparison with `isDuplicate`): the dedup key
the specification describes — same description, same absolute amount, same
date, and same group. -/
def specDedupFound (store : List MigExpense) (desc : String) (amt : ℚ)
    (date : Int) (groupId : Nat) : Bool :=
  store.any (fun e =>
    e.description = desc ∧ e.amount = amt ∧ e.date = date ∧ e.group = groupId)

/-- Per-expense import decision: skip soft-deleted expenses, unparseable or
zero costs, and duplicates; otherwise produce the document to insert. -/
def importDecision (store : List MigExpense) (userId groupId : Nat)
    (e : SWExp) : Option MigExpense :=
  if e.deletedAt then none
  else
    match e.cost with
    | none => none
    | some c =>
        if c = 0 then none
        else
          let desc := effectiveDescription e.description
          let amt := |c|
          if isDuplicate store desc amt groupId userId then none
          else some { description := desc, amount := amt, date := e.date,
                      group := groupId, addedBy := userId }

/-- The single expense request the code issues per group
(`get_expenses?...&limit=500`): the upstream returns at most the first 500
records; no further pages are requested. -/
def fetchGroupExpenses (upstream : List SWExp) : List SWExp :=
  upstream.take 500

/-- Import every fetched expense of one group in order, threading the local
store; returns the new store and the number of inserts. -/
def importAll (userId groupId : Nat) (es : List SWExp)
    (store : List MigExpense) : List MigExpense × Nat :=
  es.foldl
    (fun acc e =>
      match importDecision acc.1 userId groupId e with
      | none => acc
      | some le => (acc.1 ++ [le], acc.2 + 1))
    (store, 0)

/-- A foreign group as seen by the migration loop: its resolved local group
id, whether its expense fetch succeeds, and its upstream expense list. -/
structure SWGroup where
  localGid : Nat
  fetchOk : Bool
  expenses : List SWExp
deriving Repr

/-- The per-group loop of `runMigration`: a failed expense fetch skips that
group (`continue`); otherwise the fetched page is imported.  Returns the
final store, the number of processed groups and the total imported count. -/
def processGroups (userId : Nat) (gs : List SWGroup)
    (store : List MigExpense) : List MigExpense × Nat × Nat :=
  match gs with
  | [] => (store, 0, 0)
  | g :: rest =>
      if g.fetchOk then
        let r := importAll userId g.localGid (fetchGroupExpenses g.expenses) store
        let rec' := processGroups userId rest r.1
        (rec'.1, rec'.2.1 + 1, rec'.2.2 + r.2)
      else processGroups userId rest store

/-- Outcome of a migration request. -/
inductive MigOutcome where
  | authError
  | fatal
  | success (groupsCount expensesCount : Nat)
deriving DecidableEq, Repr

/-- Local state touched by the migration: the invoking user's migration
status and stored token, and the expense store. -/
structure MigState where
  status : MigStatus
  token : Option String
  store : List MigExpense
deriving DecidableEq, Repr

/-- `runMigration`: verify the token (failure returns a 401 before touching
anything); then persist the token and the `pending` status; then fetch the
group list (failure is the outer catch, a 500); then run the group loop and
finish with `completed`. -/
def runMigration (userId : Nat) (tokenValid : Bool) (token : String)
    (groupsFetchOk : Bool) (swGroups : List SWGroup)
    (st : MigState) : MigOutcome × MigState :=
  if ¬ tokenValid then (MigOutcome.authError, st)
  else
    let st1 : MigState :=
      { st with status := MigStatus.pending, token := some token }
    if ¬ groupsFetchOk then (MigOutcome.fatal, st1)
    else
      let r := processGroups userId swGroups st1.store
      (MigOutcome.success r.2.1 r.2.2,
       { st1 with status := MigStatus.completed, store := r.1 })

/-! ### Expense update (`PUT api/expenses/:id`) -/

/-- The mutation performed by `PUT api/expenses/:id` once authorization has
passed: optional new description, amount, splits and items.  A supplied
amount that is truthy (nonzero) and different from the stored amount is
written; when no splits are supplied and the stored amount is positive, the
splits (and item prices) are first rescaled by `newAmount / oldAmount`.
Explicitly supplied splits or items then overwrite the stored ones. -/
def updateExpense (e : ExpenseRec) (desc : Option String) (amount : Option ℚ)
    (splits : Option (List Split)) (items : Option (List Item)) : ExpenseRec :=
  let e1 := match desc with
    | some d => { e with description := d }
    | none => e
  let e2 := match amount with
    | some a =>
        if a ≠ 0 ∧ a ≠ e1.amount then
          let e' :=
            if splits.isNone ∧ e1.amount > 0 then
              let ratio := a / e1.amount
              { e1 with
                  splits := e1.splits.map (fun s => ⟨s.user, s.amount * ratio⟩)
                  items :=
                    if e1.items ≠ [] then
                      e1.items.map (fun it => { it with price := it.price * ratio })
                    else e1.items }
            else e1
          { e' with amount := a }
        else e1
    | none => e1
  let e3 := match splits with
    | some s => { e2 with splits := s }
    | none => e2
  match items with
  | some i => { e3 with items := i }
  | none => e3

/-- Sum of the split amounts of a list of splits. -/
def splitsSum (ss : List Split) : ℚ :=
  (ss.map Split.amount).sum

/-- Sum of the amounts of the expenses the user paid (the claim's wording of
one half of the leave-route balance). -/
def paidSum (uid : Nat) (expenses : List ExpenseRec) : ℚ :=
  ((expenses.filter (fun e => e.paidBy = uid)).map ExpenseRec.amount).sum

/-- Sum of the split amounts charged to the user across all expenses (the
other half of the leave-route balance). -/
def owedSum (uid : Nat) (expenses : List ExpenseRec) : ℚ :=
  (expenses.map (fun e =>
    ((e.splits.filter (fun s => s.user = uid)).map Split.amount).sum)).sum

/-! ### Lemmas about the netting pass -/

/-- The pair property netting establishes: at most one direction nonzero,
and the signed difference preserved from the pre-netting matrix. -/
def Pnet (pre post : Mat) (a b : Nat) : Prop :=
  (post a b = 0 ∨ post b a = 0) ∧ post a b - post b a = pre a b - pre b a

theorem netInner_cons (m : Mat) (a b : Nat) (bs : List Nat) :
    netInner m a (b :: bs) = netInner (netPair m a b) a bs := rfl

theorem netPair_other (m : Mat) (c d x y : Nat)
    (h1 : ¬(x = c ∧ y = d)) (h2 : ¬(x = d ∧ y = c)) :
    netPair m c d x y = m x y := by
  unfold netPair
  split <;> simp [mupd, h1, h2]

theorem netPair_estab (m : Mat) (a b : Nat) (hab : a ≠ b) :
    Pnet m (netPair m a b) a b := by
  have hba : b ≠ a := fun h => hab h.symm
  unfold Pnet netPair
  split
  · constructor
    · right
      simp [mupd]
    · simp [mupd, hab, hba]
  · constructor
    · left
      simp [mupd, hab, hba]
    · simp [mupd, hab, hba]

theorem netInner_other (m : Mat) (c : Nat) (bs : List Nat) (x y : Nat)
    (h : ∀ b' ∈ bs, ¬(x = c ∧ y = b') ∧ ¬(x = b' ∧ y = c)) :
    netInner m c bs x y = m x y := by
  induction bs generalizing m with
  | nil => rfl
  | cons b bs ih =>
      rw [netInner_cons, ih (netPair m c b)
        (fun b' hb' => h b' (List.mem_cons_of_mem b hb'))]
      exact netPair_other m c b x y
        (h b (List.mem_cons_self b bs)).1 (h b (List.mem_cons_self b bs)).2

theorem netAll_other (m : Mat) (l : List Nat) (x y : Nat) (h : x ∉ l ∨ y ∉ l) :
    netAll m l x y = m x y := by
  induction l generalizing m with
  | nil => rfl
  | cons c rest ih =>
      have h' : x ∉ rest ∨ y ∉ rest := by
        rcases h with hx | hy
        · exact Or.inl (fun hm => hx (List.mem_cons_of_mem c hm))
        · exact Or.inr (fun hm => hy (List.mem_cons_of_mem c hm))
      rw [netAll, ih (netInner m c rest) h']
      apply netInner_other
      intro b' hb'
      rcases h with hx | hy
      · have hxc : x ≠ c := fun he => hx (he ▸ List.mem_cons_self c rest)
        have hxb : x ≠ b' := fun he => hx (he ▸ List.mem_cons_of_mem c hb')
        exact ⟨fun hc => hxc hc.1, fun hc => hxb hc.1⟩
      · have hyc : y ≠ c := fun he => hy (he ▸ List.mem_cons_self c rest)
        have hyb : y ≠ b' := fun he => hy (he ▸ List.mem_cons_of_mem c hb')
        exact ⟨fun hc => hyb hc.2, fun hc => hyc hc.2⟩

theorem netInner_estab (m : Mat) (a : Nat) (bs : List Nat) (b : Nat)
    (hab : a ≠ b) (hb : b ∈ bs) (ha : a ∉ bs) (hnd : bs.Nodup) :
    Pnet m (netInner m a bs) a b := by
  induction bs generalizing m with
  | nil => cases hb
  | cons c rest ih =>
      have hanr : a ∉ rest := fun hm => ha (List.mem_cons_of_mem c hm)
      have hanc : a ≠ c := fun he => ha (he ▸ List.mem_cons_self c rest)
      have hcr : c ∉ rest := (List.nodup_cons.mp hnd).1
      have hndr : rest.Nodup := (List.nodup_cons.mp hnd).2
      rw [netInner_cons]
      rcases List.mem_cons.mp hb with hcb | hbrest
      · subst hcb
        have hpres : ∀ x y : Nat, (x = a ∧ y = b) ∨ (x = b ∧ y = a) →
            netInner (netPair m a b) a rest x y = netPair m a b x y := by
          intro x y hxy
          apply netInner_other
          intro b' hb'
          have hb'a : b' ≠ a := fun he => hanr (he ▸ hb')
          have hb'b : b' ≠ b := fun he => hcr (he ▸ hb')
          rcases hxy with ⟨hx, hy⟩ | ⟨hx, hy⟩ <;> subst hx <;> subst hy
          · exact ⟨fun hc => hb'b hc.2.symm, fun hc => hb'a hc.1.symm⟩
          · exact ⟨fun hc => hab hc.1.symm, fun hc => hb'b hc.1.symm⟩
        obtain ⟨hor, hdiff⟩ := netPair_estab m a b hab
        refine ⟨?_, ?_⟩
        · rw [hpres a b (Or.inl ⟨rfl, rfl⟩), hpres b a (Or.inr ⟨rfl, rfl⟩)]
          exact hor
        · rw [hpres a b (Or.inl ⟨rfl, rfl⟩), hpres b a (Or.inr ⟨rfl, rfl⟩)]
          exact hdiff
      · have hbc : b ≠ c := fun he => hcr (he ▸ hbrest)
        have e1 : netPair m a c a b = m a b :=
          netPair_other m a c a b (fun hc => hbc hc.2) (fun hc => hanc hc.1)
        have e2 : netPair m a c b a = m b a :=
          netPair_other m a c b a (fun hc => hab hc.1.symm) (fun hc => hbc hc.1)
        obtain ⟨hor, hdiff⟩ := ih (netPair m a c) hbrest hanr hndr
        exact ⟨hor, by rw [hdiff, e1, e2]⟩

theorem netAll_estab (m : Mat) (l : List Nat) (a b : Nat)
    (hnd : l.Nodup) (ha : a ∈ l) (hb : b ∈ l) (hab : a ≠ b) :
    Pnet m (netAll m l) a b := by
  induction l generalizing m with
  | nil => cases ha
  | cons c rest ih =>
      have hcr : c ∉ rest := (List.nodup_cons.mp hnd).1
      have hndr : rest.Nodup := (List.nodup_cons.mp hnd).2
      rw [netAll]
      rcases List.mem_cons.mp ha with hac | harest
      · -- a = c : the inner loop for `a` nets the pair, then `a` is gone
        subst hac
        have hbrest : b ∈ rest := by
          rcases List.mem_cons.mp hb with hbc | h
          · exact absurd hbc.symm hab
          · exact h
        obtain ⟨hor, hdiff⟩ := netInner_estab m a rest b hab hbrest hcr hndr
        have p1 : netAll (netInner m a rest) rest a b = netInner m a rest a b :=
          netAll_other _ rest a b (Or.inl hcr)
        have p2 : netAll (netInner m a rest) rest b a = netInner m a rest b a :=
          netAll_other _ rest b a (Or.inr hcr)
        exact ⟨by rw [p1, p2]; exact hor, by rw [p1, p2, hdiff]⟩
      · rcases List.mem_cons.mp hb with hbc | hbrest
        · -- b = c : the inner loop for `b` meets `a`, then `b` is gone
          subst hbc
          obtain ⟨hor, hdiff⟩ :=
            netInner_estab m b rest a (fun h => hab h.symm) harest hcr hndr
          have p1 : netAll (netInner m b rest) rest a b = netInner m b rest a b :=
            netAll_other _ rest a b (Or.inr hcr)
          have p2 : netAll (netInner m b rest) rest b a = netInner m b rest b a :=
            netAll_other _ rest b a (Or.inl hcr)
          refine ⟨?_, ?_⟩
          · rw [p1, p2]
            exact hor.symm
          · rw [p1, p2]
            have := hdiff
            linarith
        · -- both in the tail : the head's inner loop leaves the pair alone
          have hac : a ≠ c := fun he => hcr (he ▸ harest)
          have hbc : b ≠ c := fun he => hcr (he ▸ hbrest)
          have e1 : netInner m c rest a b = m a b := by
            apply netInner_other
            intro b' _
            exact ⟨fun hc => hac hc.1, fun hc => hbc hc.2⟩
          have e2 : netInner m c rest b a = m b a := by
            apply netInner_other
            intro b' _
            exact ⟨fun hc => hbc hc.1, fun hc => hac hc.2⟩
          obtain ⟨hor, hdiff⟩ := ih (netInner m c rest) hndr harest hbrest
          exact ⟨hor, by rw [hdiff, e1, e2]⟩

/-- C1: after `computeBalances`' netting pass, for every pair of distinct
members at most one of `matrix[A][B]`, `matrix[B][A]` is nonzero, and the
pre-netting difference `matrix[A][B] − matrix[B][A]` equals the post-netting
signed difference. -/
theorem computeBalances_netting (expenses : List ExpenseRec) (members : List Nat)
    (hnd : members.Nodup) (a b : Nat) (ha : a ∈ members) (hb : b ∈ members)
    (hab : a ≠ b) :
    (computeBalances expenses members a b = 0 ∨
        computeBalances expenses members b a = 0) ∧
      computeBalances expenses members a b - computeBalances expenses members b a =
        accumulate expenses members a b - accumulate expenses members b a :=
  netAll_estab (accumulate expenses members) members a b hnd ha hb hab

/-- A one-expense instance used to witness the netting theorem. -/
def w1exps : List ExpenseRec :=
  [{ description := "w", amount := 7, paidBy := 0, splits := [⟨1, 7⟩], items := [] }]

theorem computeBalances_netting_witness :
    ([0, 1] : List Nat).Nodup ∧ (0 : Nat) ∈ [0, 1] ∧ (1 : Nat) ∈ ([0, 1] : List Nat) ∧
      (0 : Nat) ≠ 1 ∧
      ((computeBalances w1exps [0, 1] 0 1 = 0 ∨ computeBalances w1exps [0, 1] 1 0 = 0) ∧
        computeBalances w1exps [0, 1] 0 1 - computeBalances w1exps [0, 1] 1 0 =
          accumulate w1exps [0, 1] 0 1 - accumulate w1exps [0, 1] 1 0) :=
  ⟨by decide, by decide, by decide, by decide,
    computeBalances_netting w1exps [0, 1] (by decide) 0 1 (by decide) (by decide) (by decide)⟩

/-! ### The spec's worked scenario -/

/-- The spec's scenario: payer A (=0), amount 30, splits B (=1): 10 and
C (=2): 10; then payer B, amount 20, splits A: 20. -/
def scenarioExpenses : List ExpenseRec :=
  [ { description := "e1", amount := 30, paidBy := 0,
      splits := [⟨1, 10⟩, ⟨2, 10⟩], items := [] },
    { description := "e2", amount := 20, paidBy := 1,
      splits := [⟨0, 20⟩], items := [] } ]

/-- Members {A, B, C} of the scenario. -/
def scenarioMembers : List Nat := [0, 1, 2]

/-- C2 counterexample: the code does not produce the matrix the claim states.
The second expense makes A owe B 20 (B paid), so netting B's 10 against it
leaves A→B = 10; the entry B→A is 0, not 20, and A's `owes` list is not
empty. -/
theorem scenario_claim_counterexample :
    computeBalances scenarioExpenses scenarioMembers 1 0 ≠ 20 ∧
      (buildMemberSummary 0 (computeBalances scenarioExpenses scenarioMembers)
          scenarioMembers).1 ≠ [] := by
  constructor <;>
    norm_num [computeBalances, accumulate, addExpense, netAll, netInner, netPair,
      mupd, buildMemberSummary, scenarioExpenses, scenarioMembers, List.filterMap_cons]

/-- C2 (amended): on the scenario input the net matrix is A→B = 10 and
C→A = 10 with every other entry 0, and A's summary is owes = [B: 10],
owedBy = [C: 10] (a net position of 0 for A). -/
theorem scenario_net_matrix :
    computeBalances scenarioExpenses scenarioMembers 0 1 = 10 ∧
      computeBalances scenarioExpenses scenarioMembers 2 0 = 10 ∧
      computeBalances scenarioExpenses scenarioMembers 1 0 = 0 ∧
      computeBalances scenarioExpenses scenarioMembers 0 2 = 0 ∧
      computeBalances scenarioExpenses scenarioMembers 1 2 = 0 ∧
      computeBalances scenarioExpenses scenarioMembers 2 1 = 0 ∧
      (buildMemberSummary 0 (computeBalances scenarioExpenses scenarioMembers)
          scenarioMembers).1 = [(1, 10)] ∧
      (buildMemberSummary 0 (computeBalances scenarioExpenses scenarioMembers)
          scenarioMembers).2 = [(2, 10)] := by
  refine ⟨?_, ?_, ?_, ?_, ?_, ?_, ?_, ?_⟩ <;>
    norm_num [computeBalances, accumulate, addExpense, netAll, netInner, netPair,
      mupd, buildMemberSummary, scenarioExpenses, scenarioMembers, List.filterMap_cons]

/-! ### Migration dedup (C3) -/

/-- A store holding one imported expense dated 5. -/
def dupStore : List MigExpense :=
  [{ description := "Dinner", amount := 10, date := 5, group := 0, addedBy := 0 }]

/-- An incoming foreign expense identical except for its date (7). -/
def dupIncoming : SWExp :=
  { deletedAt := false, cost := some 10, description := some "Dinner", date := 7 }

/-- C3 counterexample: the incoming expense matches no stored expense on the
spec's key (its date differs), yet the code skips the insert — the dedup
query does not compare dates. -/
theorem dedup_claim_counterexample :
    importDecision dupStore 0 0 dupIncoming = none ∧
      specDedupFound dupStore "Dinner" 10 7 0 = false := by
  constructor <;> decide

/-- C3 (amended): for a foreign expense that reaches the insert stage (not
soft-deleted, parseable nonzero cost), the insert is skipped exactly when the
store holds an expense with the same description, the same absolute amount,
the same group and the same `addedBy` — the date is not part of the check. -/
theorem dedup_skip_iff (store : List MigExpense) (userId groupId : Nat)
    (e : SWExp) (hdel : e.deletedAt = false) (c : ℚ) (hc : e.cost = some c)
    (hc0 : c ≠ 0) :
    importDecision store userId groupId e = none ↔
      ∃ x ∈ store, x.description = effectiveDescription e.description ∧
        x.amount = |c| ∧ x.group = groupId ∧ x.addedBy = userId := by
  by_cases hdup :
      isDuplicate store (effectiveDescription e.description) |c| groupId userId = true
  · have hex := hdup
    simp only [isDuplicate, List.any_eq_true, decide_eq_true_eq] at hex
    simp only [importDecision, hdel, hc, hc0, hdup]
    simpa using hex
  · have hnex := hdup
    simp only [isDuplicate, List.any_eq_true, decide_eq_true_eq] at hnex
    simp only [importDecision, hdel, hc, hc0, hdup]
    simpa using hnex

theorem dedup_skip_iff_witness :
    dupIncoming.deletedAt = false ∧ dupIncoming.cost = some 10 ∧ (10 : ℚ) ≠ 0 ∧
      (importDecision dupStore 0 0 dupIncoming = none ↔
        ∃ x ∈ dupStore, x.description = effectiveDescription dupIncoming.description ∧
          x.amount = |(10 : ℚ)| ∧ x.group = 0 ∧ x.addedBy = 0) :=
  ⟨rfl, rfl, by norm_num,
    dedup_skip_iff dupStore 0 0 dupIncoming rfl 10 rfl (by norm_num)⟩

/-! ### Migration pagination (C4) -/

/-- An upstream group holding 501 expenses — one more than the fetch limit. -/
def manyUpstream : List SWExp :=
  List.replicate 501 { deletedAt := false, cost := some 1, description := some "x", date := 0 }

/-- C4 counterexample: with 501 upstream expenses the single
`limit=500` request retrieves only 500 of them; there is no paging loop, so
the retrieval is not the full upstream list. -/
theorem pagination_claim_counterexample :
    (fetchGroupExpenses manyUpstream).length = 500 ∧ manyUpstream.length = 501 ∧
      fetchGroupExpenses manyUpstream ≠ manyUpstream := by
  have h1 : (fetchGroupExpenses manyUpstream).length = 500 := by
    simp only [fetchGroupExpenses, manyUpstream]
    rw [List.length_take, List.length_replicate]
    decide
  have h2 : manyUpstream.length = 501 := by
    simp only [manyUpstream]
    rw [List.length_replicate]
  refine ⟨h1, h2, fun h => ?_⟩
  have hlen : (fetchGroupExpenses manyUpstream).length = manyUpstream.length := by
    rw [h]
  rw [h1, h2] at hlen
  exact absurd hlen (by decide)

/-- C4 (amended): each group's expenses are retrieved by one request with a
fixed limit of 500: the result is the first `min 500 n` upstream records, and
only when the upstream group holds at most 500 expenses is everything
retrieved. -/
theorem fetchGroupExpenses_single_page (upstream : List SWExp) :
    (fetchGroupExpenses upstream).length = min 500 upstream.length ∧
      (upstream.length ≤ 500 → fetchGroupExpenses upstream = upstream) := by
  constructor
  · simp [fetchGroupExpenses]
  · intro h
    simp [fetchGroupExpenses, List.take_of_length_le h]

theorem fetchGroupExpenses_single_page_witness :
    fetchGroupExpenses [dupIncoming] = [dupIncoming] :=
  (fetchGroupExpenses_single_page [dupIncoming]).2 (by simp)

/-! ### Migration state machine (C5, C6) -/

/-- A fresh local state: no migration yet, empty store. -/
def mig0 : MigState := { status := MigStatus.noStatus, token := none, store := [] }

/-- C5: when token verification fails, `runMigration` returns the auth error
with the local state untouched (status still `'none'`); and when the token
verifies, the status is written as `'pending'` before any foreign data — a
failure of the very next step (the group-list fetch) leaves status
`'pending'` with the expense store unchanged. -/
theorem runMigration_auth_failure (userId : Nat) (token : String)
    (swGroups : List SWGroup) (st : MigState)
    (hst : st.status = MigStatus.noStatus) :
    (∀ gok : Bool,
        runMigration userId false token gok swGroups st = (MigOutcome.authError, st) ∧
          (runMigration userId false token gok swGroups st).2.status =
            MigStatus.noStatus) ∧
      (runMigration userId true token false swGroups st).2.status =
        MigStatus.pending ∧
      (runMigration userId true token false swGroups st).2.store = st.store := by
  refine ⟨fun gok => ⟨?_, ?_⟩, ?_, ?_⟩ <;> simp [runMigration, hst]

theorem runMigration_auth_failure_witness :
    mig0.status = MigStatus.noStatus ∧
      ((∀ gok : Bool,
          runMigration 0 false "t" gok [] mig0 = (MigOutcome.authError, mig0) ∧
            (runMigration 0 false "t" gok [] mig0).2.status = MigStatus.noStatus) ∧
        (runMigration 0 true "t" false [] mig0).2.status = MigStatus.pending ∧
        (runMigration 0 true "t" false [] mig0).2.store = mig0.store) :=
  ⟨rfl, runMigration_auth_failure 0 "t" [] mig0 rfl⟩

/-- A foreign group whose expense fetch fails. -/
def gFail : SWGroup := { localGid := 0, fetchOk := false, expenses := [] }

/-- C6: a group whose expense fetch fails is skipped — the run behaves as if
that group were absent from the list — and a migration with a verified token
and a successful group-list fetch still finishes with a success outcome. -/
theorem migration_group_failure_skipped (userId : Nat) (g : SWGroup)
    (pre post : List SWGroup) (store : List MigExpense) (token : String)
    (st : MigState) (hfail : g.fetchOk = false) :
    processGroups userId (pre ++ g :: post) store =
        processGroups userId (pre ++ post) store ∧
      ∃ gc ec, (runMigration userId true token true (pre ++ g :: post) st).1 =
        MigOutcome.success gc ec := by
  constructor
  · induction pre generalizing store with
    | nil => simp [processGroups, hfail]
    | cons p ps ih =>
        cases hp : p.fetchOk <;> simp [processGroups, hp, ih]
  · exact ⟨(processGroups userId (pre ++ g :: post) st.store).2.1,
      (processGroups userId (pre ++ g :: post) st.store).2.2,
      by simp [runMigration]⟩

theorem migration_group_failure_skipped_witness :
    gFail.fetchOk = false ∧
      (processGroups 0 ([] ++ gFail :: []) [] = processGroups 0 ([] ++ []) [] ∧
        ∃ gc ec, (runMigration 0 true "t" true ([] ++ gFail :: []) mig0).1 =
          MigOutcome.success gc ec) :=
  ⟨rfl, migration_group_failure_skipped 0 gFail [] [] [] "t" mig0 rfl⟩

/-! ### Membership invariants (C7, C9) -/

theorem splitFold_eq (uid : Nat) (ss : List Split) (b : ℚ) :
    ss.foldl (fun b2 s => if s.user = uid then b2 - s.amount else b2) b =
      b - ((ss.filter (fun s => s.user = uid)).map Split.amount).sum := by
  induction ss generalizing b with
  | nil => simp
  | cons s ss ih =>
      by_cases h : s.user = uid <;>
        simp [h, ih, List.filter_cons] <;> ring

theorem userBalance_aux (uid : Nat) (exps : List ExpenseRec) (b : ℚ) :
    exps.foldl
      (fun b e =>
        let b1 := if e.paidBy = uid then b + e.amount else b
        e.splits.foldl (fun b2 s => if s.user = uid then b2 - s.amount else b2) b1)
      b = b + paidSum uid exps - owedSum uid exps := by
  induction exps generalizing b with
  | nil => simp [paidSum, owedSum]
  | cons e es ih =>
      rw [List.foldl_cons, ih]
      simp only [splitFold_eq]
      by_cases h : e.paidBy = uid <;>
        simp [paidSum, owedSum, h, List.filter_cons] <;> ring

/-- The leave route's running balance equals total paid minus total owed. -/
theorem userBalance_eq (uid : Nat) (exps : List ExpenseRec) :
    userBalance uid exps = paidSum uid exps - owedSum uid exps := by
  rw [userBalance, userBalance_aux]
  ring

theorem addMember_of_not_mem (g : PGroup) (uid : Nat) (hm : uid ∉ g.members) :
    addMember g uid =
      { members := g.members ++ [uid],
        pastMembers := g.pastMembers.filter (fun i => i ≠ uid) } := by
  simp [addMember, hm]

theorem joinGroup_of_not_mem (g : PGroup) (uid : Nat) (hm : uid ∉ g.members) :
    joinGroup g uid =
      { members := g.members ++ [uid],
        pastMembers := g.pastMembers.filter (fun i => i ≠ uid) } := by
  simp [joinGroup, hm]

theorem leaveGroup_of_mem (g : PGroup) (uid : Nat) (exps : List ExpenseRec)
    (hm : uid ∈ g.members) :
    leaveGroup g uid exps =
      { members := g.members.filter (fun i => i ≠ uid),
        pastMembers :=
          if |userBalance uid exps| > (1 : ℚ) / 100 then
            if uid ∈ g.pastMembers then g.pastMembers else g.pastMembers ++ [uid]
          else g.pastMembers } := by
  simp [leaveGroup, hm]

theorem notMem_filter_ne (l : List Nat) (uid : Nat) :
    uid ∉ l.filter (fun i => i ≠ uid) := by
  intro h
  have := List.of_mem_filter h
  simp at this

/-- C7: each membership operation keeps active members and past members
disjoint, and a member who (re-)joins is in the active set and out of the
past set after the very operation that adds them. -/
theorem membership_ops_disjoint (g : PGroup) (uid : Nat) (exps : List ExpenseRec)
    (hd : ∀ x ∈ g.members, x ∉ g.pastMembers) :
    (∀ x ∈ (addMember g uid).members, x ∉ (addMember g uid).pastMembers) ∧
      (∀ x ∈ (joinGroup g uid).members, x ∉ (joinGroup g uid).pastMembers) ∧
      (∀ x ∈ (leaveGroup g uid exps).members, x ∉ (leaveGroup g uid exps).pastMembers) ∧
      uid ∈ (addMember g uid).members ∧ uid ∉ (addMember g uid).pastMembers ∧
      uid ∈ (joinGroup g uid).members ∧ uid ∉ (joinGroup g uid).pastMembers := by
  have hadd :
      (∀ x ∈ (addMember g uid).members, x ∉ (addMember g uid).pastMembers) ∧
        uid ∈ (addMember g uid).members ∧ uid ∉ (addMember g uid).pastMembers := by
    by_cases hm : uid ∈ g.members
    · have hg : addMember g uid = g := by simp [addMember, hm]
      rw [hg]
      exact ⟨hd, hm, hd uid hm⟩
    · rw [addMember_of_not_mem g uid hm]
      refine ⟨?_, ?_, ?_⟩
      · intro x hx hpast
        rcases List.mem_append.mp hx with hxm | hxu
        · exact hd x hxm (List.mem_of_mem_filter hpast)
        · have hxu' : x = uid := by simpa using hxu
          exact notMem_filter_ne g.pastMembers uid (hxu' ▸ hpast)
      · exact List.mem_append.mpr (Or.inr (by simp))
      · exact notMem_filter_ne g.pastMembers uid
  have hjoin :
      (∀ x ∈ (joinGroup g uid).members, x ∉ (joinGroup g uid).pastMembers) ∧
        uid ∈ (joinGroup g uid).members ∧ uid ∉ (joinGroup g uid).pastMembers := by
    by_cases hm : uid ∈ g.members
    · have hg : joinGroup g uid = g := by simp [joinGroup, hm]
      rw [hg]
      exact ⟨hd, hm, hd uid hm⟩
    · rw [joinGroup_of_not_mem g uid hm]
      refine ⟨?_, ?_, ?_⟩
      · intro x hx hpast
        rcases List.mem_append.mp hx with hxm | hxu
        · exact hd x hxm (List.mem_of_mem_filter hpast)
        · have hxu' : x = uid := by simpa using hxu
          exact notMem_filter_ne g.pastMembers uid (hxu' ▸ hpast)
      · exact List.mem_append.mpr (Or.inr (by simp))
      · exact notMem_filter_ne g.pastMembers uid
  have hleave :
      ∀ x ∈ (leaveGroup g uid exps).members, x ∉ (leaveGroup g uid exps).pastMembers := by
    by_cases hm : uid ∈ g.members
    · rw [leaveGroup_of_mem g uid exps hm]
      intro x hx
      have hxg : x ∈ g.members := List.mem_of_mem_filter hx
      have hxu : x ≠ uid := by simpa using List.of_mem_filter hx
      have hxp : x ∉ g.pastMembers := hd x hxg
      split_ifs with h1 h2
      · exact hxp
      · intro hmem
        rcases List.mem_append.mp hmem with hin | hone
        · exact hxp hin
        · exact hxu (by simpa using hone)
      · exact hxp
    · have hg : leaveGroup g uid exps = g := by simp [leaveGroup, hm]
      rw [hg]
      exact hd
  exact ⟨hadd.1, hjoin.1, hleave, hadd.2.1, hadd.2.2, hjoin.2.1, hjoin.2.2⟩

theorem membership_ops_disjoint_witness :
    (∀ x ∈ (PGroup.mk [0] [1]).members, x ∉ (PGroup.mk [0] [1]).pastMembers) ∧
      ((∀ x ∈ (addMember ⟨[0], [1]⟩ 1).members, x ∉ (addMember ⟨[0], [1]⟩ 1).pastMembers) ∧
        (∀ x ∈ (joinGroup ⟨[0], [1]⟩ 1).members, x ∉ (joinGroup ⟨[0], [1]⟩ 1).pastMembers) ∧
        (∀ x ∈ (leaveGroup ⟨[0], [1]⟩ 1 []).members,
            x ∉ (leaveGroup ⟨[0], [1]⟩ 1 []).pastMembers) ∧
        1 ∈ (addMember ⟨[0], [1]⟩ 1).members ∧ 1 ∉ (addMember ⟨[0], [1]⟩ 1).pastMembers ∧
        1 ∈ (joinGroup ⟨[0], [1]⟩ 1).members ∧ 1 ∉ (joinGroup ⟨[0], [1]⟩ 1).pastMembers) :=
  ⟨by decide, membership_ops_disjoint ⟨[0], [1]⟩ 1 [] (by decide)⟩

/-- C9: a leaving active member is always removed from the active set, and
lands in the past-member set exactly when the absolute value of their balance
(total paid minus total owed) exceeds 0.01. -/
theorem leaveGroup_settled_epsilon (g : PGroup) (uid : Nat)
    (exps : List ExpenseRec) (hm : uid ∈ g.members) (hp : uid ∉ g.pastMembers) :
    uid ∉ (leaveGroup g uid exps).members ∧
      (uid ∈ (leaveGroup g uid exps).pastMembers ↔
        |userBalance uid exps| > (1 : ℚ) / 100) ∧
      userBalance uid exps = paidSum uid exps - owedSum uid exps := by
  rw [leaveGroup_of_mem g uid exps hm]
  refine ⟨notMem_filter_ne g.members uid, ?_, userBalance_eq uid exps⟩
  by_cases h1 : |userBalance uid exps| > (1 : ℚ) / 100
  · rw [if_pos h1, if_neg hp]
    exact iff_of_true (by simp) h1
  · rw [if_neg h1]
    exact iff_of_false hp h1

theorem leaveGroup_settled_epsilon_witness :
    (0 ∈ (PGroup.mk [0] []).members) ∧ (0 ∉ (PGroup.mk [0] []).pastMembers) ∧
      (0 ∉ (leaveGroup ⟨[0], []⟩ 0 w1exps).members ∧
        (0 ∈ (leaveGroup ⟨[0], []⟩ 0 w1exps).pastMembers ↔
          |userBalance 0 w1exps| > (1 : ℚ) / 100) ∧
        userBalance 0 w1exps = paidSum 0 w1exps - owedSum 0 w1exps) :=
  ⟨by decide, by decide, leaveGroup_settled_epsilon ⟨[0], []⟩ 0 w1exps (by decide) (by decide)⟩

/-! ### Ghost promotion (C8) -/

/-- A ghost user whose migration status is not `'none'`. -/
def ghostC : PUser :=
  { uid := 7, username := "ghost", email := "g@x.com", password := "r",
    isGhostUser := true, migStatus := MigStatus.completed,
    friends := [3], avatarInitials := "GH" }

/-- C8 counterexample: promotion also rewrites the Splitwise migration
status (to `'none'`), a field that is neither a credential nor the ghost
flag, so "every other field unchanged" fails on a ghost whose status was
`'completed'`. -/
theorem ghost_promotion_claim_counterexample :
    ghostC.isGhostUser = true ∧
      (promoteGhost ghostC "alice" "pw").migStatus ≠ ghostC.migStatus := by
  constructor
  · rfl
  · simp [promoteGhost, ghostC]

/-- C8 (amended): registering with the email of an existing ghost promotes
it: the username and password are set, the ghost flag is cleared and the
migration status is reset to `'none'`, while the user id, email, friends
list and avatar initials — hence every reference keyed by that id — are
unchanged. -/
theorem register_promotes_ghost (store : List PUser) (freshUid : Nat)
    (username email password : String) (u : PUser)
    (hfind : store.find? (fun v => v.email = email) = some u)
    (hg : u.isGhostUser = true) :
    register store freshUid username email password =
        RegOutcome.promoted (promoteGhost u username password) ∧
      (promoteGhost u username password).uid = u.uid ∧
      (promoteGhost u username password).email = u.email ∧
      (promoteGhost u username password).friends = u.friends ∧
      (promoteGhost u username password).avatarInitials = u.avatarInitials ∧
      (promoteGhost u username password).username = username ∧
      (promoteGhost u username password).password = password ∧
      (promoteGhost u username password).isGhostUser = false ∧
      (promoteGhost u username password).migStatus = MigStatus.noStatus := by
  refine ⟨?_, rfl, rfl, rfl, rfl, rfl, rfl, rfl, rfl⟩
  rw [register, hfind]
  simp [hg]

theorem register_promotes_ghost_witness :
    [ghostC].find? (fun v => v.email = "g@x.com") = some ghostC ∧
      ghostC.isGhostUser = true ∧
      (register [ghostC] 9 "alice" "g@x.com" "pw" =
          RegOutcome.promoted (promoteGhost ghostC "alice" "pw") ∧
        (promoteGhost ghostC "alice" "pw").uid = ghostC.uid ∧
        (promoteGhost ghostC "alice" "pw").email = ghostC.email ∧
        (promoteGhost ghostC "alice" "pw").friends = ghostC.friends ∧
        (promoteGhost ghostC "alice" "pw").avatarInitials = ghostC.avatarInitials ∧
        (promoteGhost ghostC "alice" "pw").username = "alice" ∧
        (promoteGhost ghostC "alice" "pw").password = "pw" ∧
        (promoteGhost ghostC "alice" "pw").isGhostUser = false ∧
        (promoteGhost ghostC "alice" "pw").migStatus = MigStatus.noStatus) :=
  ⟨by decide, rfl,
    register_promotes_ghost [ghostC] 9 "alice" "g@x.com" "pw" ghostC (by decide) rfl⟩

/-! ### Proportional rescaling on expense update (C10) -/

/-- Sum of a scaled split list. -/
theorem splitsSum_map_scale (ss : List Split) (r : ℚ) :
    splitsSum (ss.map (fun s => ⟨s.user, s.amount * r⟩)) = splitsSum ss * r := by
  induction ss with
  | nil => simp [splitsSum]
  | cons s ss ih => simp [splitsSum, List.map_cons] at ih ⊢; rw [ih]; ring

/-- An expense used in the C10 counterexample: amount 10 with one split. -/
def updE : ExpenseRec :=
  { description := "d", amount := 10, paidBy := 0, splits := [⟨1, 10⟩], items := [] }

/-- C10 counterexample: a supplied new amount of 0 differs from the stored
positive amount, yet the route's `if (amount && ...)` guard treats it as
absent — the splits are not rescaled by the ratio 0/10 (and the amount is
not updated). -/
theorem rescale_claim_counterexample :
    (0 : ℚ) ≠ updE.amount ∧ 0 < updE.amount ∧
      (updateExpense updE none (some 0) none none).splits ≠
        updE.splits.map (fun s => ⟨s.user, s.amount * (0 / updE.amount)⟩) ∧
      (updateExpense updE none (some 0) none none).amount ≠ 0 := by
  refine ⟨by norm_num [updE], by norm_num [updE], ?_, ?_⟩ <;>
    norm_num [updateExpense, updE]

/-- C10 (amended): an update that supplies a nonzero new amount different
from the stored positive amount, with no explicit splits or items, rescales
every split amount and every item price by `newAmount / oldAmount`, keeps
every split's debtor, and so carries a splits total equal to the old amount
to one equal to the new amount. -/
theorem updateExpense_rescales (e : ExpenseRec) (desc : Option String) (a : ℚ)
    (ha0 : a ≠ 0) (hne : a ≠ e.amount) (hpos : 0 < e.amount) :
    (updateExpense e desc (some a) none none).amount = a ∧
      (updateExpense e desc (some a) none none).splits =
        e.splits.map (fun s => ⟨s.user, s.amount * (a / e.amount)⟩) ∧
      (updateExpense e desc (some a) none none).splits.map Split.user =
        e.splits.map Split.user ∧
      (updateExpense e desc (some a) none none).items =
        e.items.map (fun it => { it with price := it.price * (a / e.amount) }) ∧
      (splitsSum e.splits = e.amount →
        splitsSum (updateExpense e desc (some a) none none).splits = a) := by
  have hbody : updateExpense e desc (some a) none none =
      { e with
          description := (match desc with | some d => d | none => e.description)
          amount := a
          splits := e.splits.map (fun s => ⟨s.user, s.amount * (a / e.amount)⟩)
          items :=
            if e.items ≠ [] then
              e.items.map (fun it => { it with price := it.price * (a / e.amount) })
            else e.items } := by
    cases desc <;>
      simp [updateExpense, ha0, hne, hpos]
  rw [hbody]
  refine ⟨rfl, rfl, by simp, ?_, ?_⟩
  · by_cases hit : e.items = []
    · simp [hit]
    · simp [hit]
  · intro hsum
    rw [splitsSum_map_scale, hsum]
    field_simp

/-- The expense used to witness the rescaling theorem. -/
def wE : ExpenseRec :=
  { description := "d", amount := 10, paidBy := 0,
    splits := [⟨1, 4⟩, ⟨2, 6⟩], items := [⟨1, 10⟩] }

theorem updateExpense_rescales_witness :
    (20 : ℚ) ≠ 0 ∧ (20 : ℚ) ≠ wE.amount ∧ 0 < wE.amount ∧
      ((updateExpense wE none (some 20) none none).amount = 20 ∧
        (updateExpense wE none (some 20) none none).splits =
          wE.splits.map (fun s => ⟨s.user, s.amount * (20 / wE.amount)⟩) ∧
        (updateExpense wE none (some 20) none none).splits.map Split.user =
          wE.splits.map Split.user ∧
        (updateExpense wE none (some 20) none none).items =
          wE.items.map (fun it => { it with price := it.price * (20 / wE.amount) }) ∧
        (splitsSum wE.splits = wE.amount →
          splitsSum (updateExpense wE none (some 20) none none).splits = 20)) :=
  ⟨by norm_num, by norm_num [wE], by norm_num [wE],
    updateExpense_rescales wE none 20 (by norm_num) (by norm_num [wE]) (by norm_num [wE])⟩

end Paywise
